import Mathlib

/-!
Shallow embedding of the ergo node core (src/node/core.go, src/node/types.go):
the process registry (id / name / alias indexes), identifier mint, the
alias operations, process clean-up, and the local routing of RouteSend /
RouteSendReg / RouteSendAlias.  Go maps are modelled as association lists,
machine integers as `Nat` with explicit `% 2^32` / `% 2^64` where overflow
matters, and fallible calls return `Option Err` (like Go's `error`,
`none` = nil).
-/

namespace Ergo

/-- Payload of a message (`etf.Term`): opaque to the core, modelled as `Nat`. -/
abbrev Term := Nat

/-- `etf.Pid`: `(node name, 64-bit numeric id, 32-bit creation)`. -/
structure Pid where
  node : String
  id : Nat
  creation : Nat
  deriving DecidableEq, Repr

/-- `etf.Ref`: node name, creation and three 32-bit words `ID[0..2]`. -/
structure Ref where
  node : String
  creation : Nat
  id0 : Nat
  id1 : Nat
  id2 : Nat
  deriving DecidableEq, Repr

/-- `etf.Alias` is structurally a `Ref`. -/
abbrev Alias := Ref

/-- `gen.ProcessID`: a registered name on a node. -/
structure ProcessID where
  name : String
  node : String
  deriving DecidableEq, Repr

/-- The error values of src/node/types.go that the core returns, plus
`mailboxFull` for the fresh `fmt.Errorf("WARNING! mailbox of %s is full. dropped
message from %s")` value produced inside `RouteSend`.  `ErrNameOwner` and
`ErrAliasOwner` are distinct Go error values (two separate `fmt.Errorf` calls),
hence distinct constructors. -/
inductive Err where
  | nameUnknown
  | nameOwner
  | processBusy
  | processUnknown
  | processIncarnation
  | processTerminated
  | monitorUnknown
  | senderUnknown
  | aliasUnknown
  | aliasOwner
  | noRoute
  | taken
  | timeout
  | mailboxFull
  deriving DecidableEq, Repr

/-- The fields of `process` (src/node/core.go) that the registry and router
read or write.  Bounded channels are modelled as a list of queued entries plus
their capacity; `contextCancelled` is the state of the process context
(`kill` cancels it); `gracefulExitNil` records that `cleanProcess` has set the
`gracefulExit` channel to nil (a send on a nil channel never proceeds). -/
structure Process where
  self : Pid
  name : String
  aliases : List Alias
  trapExit : Bool
  contextCancelled : Bool
  mailBox : List (Pid × Term)
  mailboxSize : Nat
  gracefulExit : List (Pid × String)
  gracefulExitSize : Nat
  gracefulExitNil : Bool
  deriving DecidableEq, Repr

/-- Modelled from the spec: `process.IsAlive` lives in process.go, which is
not part of the snapshot; per the spec, lookups treat a process as absent
once its context has been cancelled. -/
def Process.isAlive (p : Process) : Bool := !p.contextCancelled

/-- Association-list lookup, the model of a Go map read `m[k]`. -/
def alistLookup {α β : Type} [DecidableEq α] (k : α) : List (α × β) → Option β
  | [] => none
  | (k', v) :: rest => if k' = k then some v else alistLookup k rest

/-- Association-list key removal, the model of Go `delete(m, k)`. -/
def alistErase {α β : Type} [DecidableEq α] (k : α) : List (α × β) → List (α × β)
  | [] => []
  | (k', v) :: rest => if k' = k then alistErase k rest else (k', v) :: alistErase k rest

/-- Association-list insert/overwrite, the model of Go `m[k] = v`. -/
def alistInsert {α β : Type} [DecidableEq α] (k : α) (v : β) (l : List (α × β)) :
    List (α × β) :=
  (k, v) :: alistErase k l

/-- The `core` struct (src/node/core.go:20).  The alias table maps an alias to
the `self` pid of the owning `*process` (the pid is the identity of the
pointed-to object: process ids are minted by a monotonic counter, so within
one incarnation no two process objects share a `self`); the process table is
the object store, keyed by `Pid.ID` as in the source. -/
structure Core where
  nodename : String
  creation : Nat
  nextPID : Nat
  uniqID : Nat
  names : List (String × Pid)
  aliases : List (Alias × Pid)
  processes : List (Nat × Process)
  deriving DecidableEq, Repr

/-- Modelled from the spec: the network subsystem (`networkInternal`,
`GetConnection`, `ConnectionInterface`) is not part of the snapshot.  Its
observable results are parameters: `getConnection n = some e` means
`GetConnection(n)` failed with `e`, `none` means a connection was obtained,
and the `connSend*` fields give the result of the connection's
`Send`/`SendReg`/`SendAlias`. -/
structure Net where
  getConnection : String → Option Err
  connSend : Pid → Pid → Term → Option Err
  connSendReg : Pid → ProcessID → Term → Option Err
  connSendAlias : Pid → Alias → Term → Option Err

/-- `newCore` (src/node/core.go:70): counters start at `startPID = 1000` and at
the wall-clock nanoseconds `nowUnixNano` taken at start; all tables empty.
`creation` is `options.Creation`, a uint32. -/
def newCore (nodename : String) (creation : Nat) (nowUnixNano : Nat) : Core :=
  { nodename := nodename
    creation := creation % 2 ^ 32
    nextPID := 1000
    uniqID := nowUnixNano % 2 ^ 64
    names := []
    aliases := []
    processes := [] }

/-- `core.newPID` (src/node/core.go:134): atomic increment of the 64-bit pid
counter; the pid carries the node name and creation. -/
def Core.newPID (c : Core) : Pid × Core :=
  let i := (c.nextPID + 1) % 2 ^ 64
  ({ node := c.nodename, id := i, creation := c.creation }, { c with nextPID := i })

/-- `core.MakeRef` (src/node/core.go:147): atomic increment of the 64-bit
`uniqID` counter; `ID[0] = uint32(nt & ((2<<17)-1))`, `ID[1] = uint32(nt >> 46)`,
`ID[2]` is left at its zero value. -/
def Core.MakeRef (c : Core) : Ref × Core :=
  let nt := (c.uniqID + 1) % 2 ^ 64
  ({ node := c.nodename
     creation := c.creation
     id0 := (nt &&& ((2 <<< 17) - 1)) % 2 ^ 32
     id1 := (nt >>> 46) % 2 ^ 32
     id2 := 0 }, { c with uniqID := nt })

/-- `core.IsAlias` (src/node/core.go:157). -/
def Core.IsAlias (c : Core) (a : Alias) : Bool :=
  (alistLookup a c.aliases).isSome

/-- `core.newAlias` (src/node/core.go:164): check the owner is registered,
mint a ref, insert it into the alias table and append it to the owner's alias
list.  The owner argument is the pointer's `self` pid. -/
def Core.newAlias (c : Core) (owner : Pid) : Option Alias × Core :=
  match alistLookup owner.id c.processes with
  | none => (none, c)
  | some p =>
      let (a, c1) := c.MakeRef
      (some a,
        { c1 with
          aliases := alistInsert a owner c1.aliases
          processes := alistInsert owner.id { p with aliases := p.aliases ++ [a] } c1.processes })

/-- `p.aliases[i] = p.aliases[0]; p.aliases = p.aliases[1:]` applied at the
first index holding `a` strictly after the head `h`: that occurrence is
overwritten with `h` and the head is dropped, i.e. the occurrence is replaced
by `h`.  `none` when `a` does not occur. -/
def replaceFirst {α : Type} [DecidableEq α] (a h : α) : List α → Option (List α)
  | [] => none
  | x :: xs => if x = a then some (h :: xs) else (replaceFirst a h xs).map (fun l => x :: l)

/-- The removal loop of `deleteAlias` (src/node/core.go:210): find the first
occurrence of `a`, overwrite it with the head and drop the head; `none` when
the loop falls through without finding `a`. -/
def goRemoveAlias {α : Type} [DecidableEq α] (a : α) : List α → Option (List α)
  | [] => none
  | h :: t => if h = a then some t else replaceFirst a h t

/-- `core.deleteAlias` (src/node/core.go:188), in source order: alias-table
lookup (`ErrAliasUnknown` when absent), owner presence in the process table
(`ErrProcessUnknown`), ownership check `p.self != owner.self`
(`ErrAliasOwner`), then removal from the global table and from the owner's
alias list.  The final branch is the source's "Bug: Process lost its alias"
path: the alias is in the table but not in the owner's list; the code still
deletes it from the table and returns `ErrAliasUnknown`. -/
def Core.deleteAlias (c : Core) (owner : Pid) (a : Alias) : Option Err × Core :=
  match alistLookup a c.aliases with
  | none => (some Err.aliasUnknown, c)
  | some target =>
      match alistLookup owner.id c.processes with
      | none => (some Err.processUnknown, c)
      | some r =>
          if target ≠ owner then (some Err.aliasOwner, c)
          else
            match goRemoveAlias a r.aliases with
            | some l =>
                (none,
                  { c with
                    aliases := alistErase a c.aliases
                    processes := alistInsert owner.id { r with aliases := l } c.processes })
            | none => (some Err.aliasUnknown, { c with aliases := alistErase a c.aliases })

/-- `core.deleteProcess` (src/node/core.go:332): remove the process from the
id table, drop its registered name and every name mapping to its pid, then run
`for alias := range c.aliases { delete(c.aliases, alias) }` — which clears the
entire alias table. -/
def Core.deleteProcess (c : Core) (pid : Pid) : Core :=
  match alistLookup pid.id c.processes with
  | none => c
  | some p =>
      let names1 := if p.name ≠ "" then alistErase p.name c.names else c.names
      let names2 := names1.filter (fun kv => decide (p.self ≠ kv.2))
      { c with
        processes := alistErase pid.id c.processes
        names := names2
        aliases := [] }

/-- `core.registerName` (src/node/core.go:453). -/
def Core.registerName (c : Core) (name : String) (pid : Pid) : Option Err × Core :=
  match alistLookup name c.names with
  | some _ => (some Err.taken, c)
  | none => (none, { c with names := alistInsert name pid c.names })

/-- `core.unregisterName` (src/node/core.go:465): remove the mapping when the
name is present, `ErrNameUnknown` otherwise; no ownership check. -/
def Core.unregisterName (c : Core) (name : String) : Option Err × Core :=
  match alistLookup name c.names with
  | some _ => (none, { c with names := alistErase name c.names })
  | none => (some Err.nameUnknown, c)

/-- `core.ProcessByPid` (src/node/core.go:578): present in the id table and
`IsAlive`. -/
def Core.ProcessByPid (c : Core) (pid : Pid) : Option Process :=
  match alistLookup pid.id c.processes with
  | some p => if p.isAlive then some p else none
  | none => none

/-- `core.ProcessByAlias` (src/node/core.go:590): the table yields the owning
process (here fetched through its pid, the pointer's identity) and the result
is guarded by `IsAlive`. -/
def Core.ProcessByAlias (c : Core) (a : Alias) : Option Process :=
  match alistLookup a c.aliases with
  | some owner =>
      match alistLookup owner.id c.processes with
      | some p => if p.isAlive then some p else none
      | none => none
  | none => none

/-- `core.ProcessByName` (src/node/core.go:601): resolve the name to a pid
(absent name: nil) and delegate to `ProcessByPid`; an empty name skips the
lookup and delegates with the zero pid. -/
def Core.ProcessByName (c : Core) (name : String) : Option Process :=
  if name ≠ "" then
    match alistLookup name c.names with
    | some pid => c.ProcessByPid pid
    | none => none
  else c.ProcessByPid { node := "", id := 0, creation := 0 }

/-- `core.RouteSend` (src/node/core.go:638).  Sender must carry this node's
name, else `ErrSenderUnknown`.  Local target: creation must match
(`ErrProcessIncarnation`), the target must be in the id table
(`ErrProcessUnknown`), then a non-blocking enqueue — on a full mailbox the
message is dropped and the `fmt.Errorf` warning is returned.  Remote target:
the sender must be a registered local process, then the connection is asked. -/
def Core.RouteSend (c : Core) (net : Net) (fromPid : Pid) (toPid : Pid) (message : Term) :
    Option Err × Core :=
  if fromPid.node ≠ c.nodename then (some Err.senderUnknown, c)
  else if toPid.node = c.nodename then
    if toPid.creation ≠ c.creation then (some Err.processIncarnation, c)
    else
      match alistLookup toPid.id c.processes with
      | none => (some Err.processUnknown, c)
      | some p =>
          if p.mailBox.length < p.mailboxSize then
            (none,
              { c with
                processes :=
                  alistInsert toPid.id { p with mailBox := p.mailBox ++ [(fromPid, message)] }
                    c.processes })
          else (some Err.mailboxFull, c)
  else
    match alistLookup fromPid.id c.processes with
    | none => (some Err.senderUnknown, c)
    | some _ =>
        match net.getConnection toPid.node with
        | some e => (some e, c)
        | none => (net.connSend fromPid toPid message, c)

/-- `core.RouteSendReg` (src/node/core.go:684): same sender check; a local
target name is resolved through the name table (`ErrProcessUnknown` when
absent) and reduced to `RouteSend`. -/
def Core.RouteSendReg (c : Core) (net : Net) (fromPid : Pid) (toReg : ProcessID) (message : Term) :
    Option Err × Core :=
  if fromPid.node ≠ c.nodename then (some Err.senderUnknown, c)
  else if toReg.node = c.nodename then
    match alistLookup toReg.name c.names with
    | none => (some Err.processUnknown, c)
    | some pid => c.RouteSend net fromPid pid message
  else
    match alistLookup fromPid.id c.processes with
    | none => (some Err.senderUnknown, c)
    | some _ =>
        match net.getConnection toReg.node with
        | some e => (some e, c)
        | none => (net.connSendReg fromPid toReg message, c)

/-- `core.RouteSendAlias` (src/node/core.go:721): same sender check; a local
alias is resolved through the alias table (`ErrProcessUnknown` when absent)
and reduced to `RouteSend` on the owner's `self`. -/
def Core.RouteSendAlias (c : Core) (net : Net) (fromPid : Pid) (toAlias : Alias) (message : Term) :
    Option Err × Core :=
  if fromPid.node ≠ c.nodename then (some Err.senderUnknown, c)
  else if toAlias.node = c.nodename then
    match alistLookup toAlias c.aliases with
    | none => (some Err.processUnknown, c)
    | some ownerSelf => c.RouteSend net fromPid ownerSelf message
  else
    match alistLookup fromPid.id c.processes with
    | none => (some Err.senderUnknown, c)
    | some _ =>
        match net.getConnection toAlias.node with
        | some e => (some e, c)
        | none => (net.connSendAlias fromPid toAlias message, c)

/-- The `process.exit` closure wired by `newProcess` (src/node/core.go:285):
a cancelled context yields `ErrProcessUnknown`; otherwise a non-blocking
enqueue of `(from, reason)` on `gracefulExit` (a nil or full channel yields
`ErrProcessBusy`); on success, unless `trapExit` is set, `kill` is invoked
(the context is cancelled). -/
def procExit (fromPid : Pid) (reason : String) (p : Process) : Option Err × Process :=
  if p.contextCancelled then (some Err.processUnknown, p)
  else if p.gracefulExitNil ∨ p.gracefulExitSize ≤ p.gracefulExit.length then
    (some Err.processBusy, p)
  else
    let p1 := { p with gracefulExit := p.gracefulExit ++ [(fromPid, reason)] }
    if p1.trapExit then (none, p1) else (none, { p1 with contextCancelled := true })

/-- Well-formedness used by the `deleteAlias` contract: if the alias table maps
`a` to `owner` and `owner` is registered, then `a` is in the owner's alias
list.  `newAlias` establishes this and `deleteAlias` preserves it; its failure
is exactly the source's "shouldn't reach this code" branch. -/
def aliasConsistent (c : Core) (owner : Pid) (a : Alias) : Bool :=
  match alistLookup a c.aliases, alistLookup owner.id c.processes with
  | some t, some r => if t = owner then decide (a ∈ r.aliases) else true
  | _, _ => true

/-! Concrete sample states used by the closed theorems below. -/

/-- Pid of the live process registered under the name "procA". -/
def pidA : Pid := { node := "demo@localhost", id := 1001, creation := 2 }

/-- Pid of a second live process, the owner of `refA`. -/
def pidQ : Pid := { node := "demo@localhost", id := 1002, creation := 2 }

/-- Pid of a live process whose one-slot mailbox is full. -/
def pidF : Pid := { node := "demo@localhost", id := 1003, creation := 2 }

/-- Pid of a process whose context has been cancelled. -/
def pidD : Pid := { node := "demo@localhost", id := 1005, creation := 2 }

/-- A sender pid carrying this node's name but a stale creation. -/
def pidStale : Pid := { node := "demo@localhost", id := 999, creation := 1 }

/-- A pid of a foreign node. -/
def pidAlien : Pid := { node := "other@host", id := 77, creation := 9 }

/-- A pid of this node from the previous incarnation (creation 1 instead of 2). -/
def pidOld : Pid := { node := "demo@localhost", id := 555, creation := 1 }

/-- A pid of a remote node with a creation differing from the local one. -/
def pidRemoteOld : Pid := { node := "far@host", id := 12, creation := 1 }

/-- Alias owned by `pidQ`. -/
def refA : Alias := { node := "demo@localhost", creation := 2, id0 := 7, id1 := 0, id2 := 0 }

/-- Alias owned by the dead process `pidD`. -/
def refD : Alias := { node := "demo@localhost", creation := 2, id0 := 9, id1 := 0, id2 := 0 }

/-- Live process registered as "procA", empty mailbox of capacity 3. -/
def procA : Process :=
  { self := pidA, name := "procA", aliases := [], trapExit := false,
    contextCancelled := false, mailBox := [], mailboxSize := 3,
    gracefulExit := [], gracefulExitSize := 3, gracefulExitNil := false }

/-- Live unnamed process owning the alias `refA`; does not trap exits. -/
def procQ : Process :=
  { self := pidQ, name := "", aliases := [refA], trapExit := false,
    contextCancelled := false, mailBox := [], mailboxSize := 3,
    gracefulExit := [], gracefulExitSize := 3, gracefulExitNil := false }

/-- Live process with a full one-slot mailbox. -/
def procFull : Process :=
  { self := pidF, name := "", aliases := [], trapExit := false,
    contextCancelled := false, mailBox := [(pidA, 5)], mailboxSize := 1,
    gracefulExit := [], gracefulExitSize := 1, gracefulExitNil := false }

/-- A process whose context has been cancelled but which is still in the
tables (the dead-but-not-yet-reaped window). -/
def procDead : Process :=
  { self := pidD, name := "dead", aliases := [refD], trapExit := false,
    contextCancelled := true, mailBox := [], mailboxSize := 3,
    gracefulExit := [], gracefulExitSize := 3, gracefulExitNil := false }

/-- A node core hosting `procA` and `procQ`, with `refA` owned by `procQ`. -/
def coreTwo : Core :=
  { nodename := "demo@localhost", creation := 2, nextPID := 1002, uniqID := 41,
    names := [("procA", pidA)], aliases := [(refA, pidQ)],
    processes := [(1001, procA), (1002, procQ)] }

/-- `coreTwo` extended with the full-mailbox process `procFull`. -/
def coreFull : Core :=
  { coreTwo with processes := coreTwo.processes ++ [(1003, procFull)] }

/-- A node core hosting only the cancelled process `procDead`, still indexed
by id, name and alias. -/
def coreDead : Core :=
  { nodename := "demo@localhost", creation := 2, nextPID := 1005, uniqID := 99,
    names := [("dead", pidD)], aliases := [(refD, pidD)],
    processes := [(1005, procDead)] }

/-- A network where no peer can be reached: `GetConnection` fails with
`ErrNoRoute` for every node name. -/
def netNone : Net :=
  { getConnection := fun _ => some Err.noRoute
    connSend := fun _ _ _ => none
    connSendReg := fun _ _ _ => none
    connSendAlias := fun _ _ _ => none }

/-! Helper lemmas about the association-list model. -/

theorem alistLookup_alistErase {α β : Type} [DecidableEq α] (k : α) (l : List (α × β)) :
    alistLookup k (alistErase k l) = none := by
  induction l with
  | nil => rfl
  | cons hd tl ih =>
      obtain ⟨k', v⟩ := hd
      by_cases hk : k' = k <;> simp [alistErase, hk, alistLookup, ih]

theorem alistErase_of_lookup_none {α β : Type} [DecidableEq α] (k : α) (l : List (α × β))
    (h : alistLookup k l = none) : alistErase k l = l := by
  induction l with
  | nil => rfl
  | cons hd tl ih =>
      obtain ⟨k', v⟩ := hd
      rw [alistLookup] at h
      by_cases hk : k' = k
      · simp [hk] at h
      · rw [alistErase, if_neg hk, ih (by simpa [hk] using h)]

theorem replaceFirst_isSome {α : Type} [DecidableEq α] (a b : α) (l : List α)
    (hm : a ∈ l) : (replaceFirst a b l).isSome = true := by
  induction l with
  | nil => cases hm
  | cons x xs ih =>
      rw [replaceFirst]
      by_cases hx : x = a
      · simp [hx]
      · have hxs : a ∈ xs := by
          cases List.mem_cons.mp hm with
          | inl h1 => exact absurd h1.symm hx
          | inr h1 => exact h1
        simp only [if_neg hx]
        cases hq : replaceFirst a b xs with
        | none => rw [hq] at ih; exact absurd (ih hxs) (by simp)
        | some l => simp

theorem goRemoveAlias_isSome {α : Type} [DecidableEq α] (a : α) (l : List α)
    (hm : a ∈ l) : (goRemoveAlias a l).isSome = true := by
  cases l with
  | nil => cases hm
  | cons x xs =>
      rw [goRemoveAlias]
      by_cases hx : x = a
      · simp [hx]
      · have hxs : a ∈ xs := by
          cases List.mem_cons.mp hm with
          | inl h1 => exact absurd h1.symm hx
          | inr h1 => exact h1
        simp only [if_neg hx]
        exact replaceFirst_isSome a x xs hxs

/-- C10: `unregisterName(name)` performs no ownership check: it removes the
mapping and returns ok exactly when `name` is present, returns `NameUnknown`
exactly when `name` is absent, never returns `NameOwner`, and touches no other
table. -/
theorem unregisterName_spec (c : Core) (name : String) :
    ((c.unregisterName name).1 = none ↔ (alistLookup name c.names).isSome = true) ∧
    ((c.unregisterName name).1 = some Err.nameUnknown ↔ alistLookup name c.names = none) ∧
    (c.unregisterName name).1 ≠ some Err.nameOwner ∧
    (c.unregisterName name).2.names = alistErase name c.names ∧
    (alistLookup name c.names = none → (c.unregisterName name).2 = c) ∧
    (c.unregisterName name).2.processes = c.processes ∧
    (c.unregisterName name).2.aliases = c.aliases := by
  cases h : alistLookup name c.names with
  | none =>
      refine ⟨by simp [Core.unregisterName, h], by simp [Core.unregisterName, h],
        by simp [Core.unregisterName, h], ?_, by simp [Core.unregisterName, h],
        by simp [Core.unregisterName, h], by simp [Core.unregisterName, h]⟩
      simp [Core.unregisterName, h, alistErase_of_lookup_none name c.names h]
  | some pid =>
      exact ⟨by simp [Core.unregisterName, h], by simp [Core.unregisterName, h],
        by simp [Core.unregisterName, h], by simp [Core.unregisterName, h],
        by simp [h], by simp [Core.unregisterName, h], by simp [Core.unregisterName, h]⟩

/-- C10 witness: deleting an absent name on the sample core returns
`NameUnknown` and leaves the state unchanged. -/
theorem unregisterName_spec_witness :
    (coreTwo.unregisterName "nosuch").2 = coreTwo ∧
    (coreTwo.unregisterName "nosuch").1 = some Err.nameUnknown :=
  ⟨(unregisterName_spec coreTwo "nosuch").2.2.2.2.1 (by decide),
   (unregisterName_spec coreTwo "nosuch").2.1.mpr (by decide)⟩

/-- C2 counterexample: on a full mailbox of a live local process the source
returns the `fmt.Errorf` mailbox-full warning — a non-nil error — to the
caller, so the claim's "the call returns ok (no error is returned)" is false. -/
theorem routeSend_full_returns_error :
    (coreFull.RouteSend netNone pidA pidF 9).1 = some Err.mailboxFull ∧
    (coreFull.RouteSend netNone pidA pidF 9).1 ≠ none ∧
    procFull.isAlive = true := by
  refine ⟨by decide, by decide, by decide⟩

/-- C2 (amended): a send to a local process whose mailbox is full drops the
message, returns the mailbox-full warning as an error value, and leaves the
whole state — in particular the earlier queued messages — unchanged. -/
theorem routeSend_full_mailbox_drops (c : Core) (net : Net) (f t : Pid) (msg : Term)
    (p : Process) (hf : f.node = c.nodename) (ht : t.node = c.nodename)
    (hc : t.creation = c.creation) (hp : alistLookup t.id c.processes = some p)
    (hfull : p.mailboxSize ≤ p.mailBox.length) :
    c.RouteSend net f t msg = (some Err.mailboxFull, c) := by
  simp [Core.RouteSend, hf, ht, hc, hp, Nat.not_lt.mpr hfull]

/-- C2 witness: the amended theorem evaluated on the sample full-mailbox core. -/
theorem routeSend_full_mailbox_drops_witness :
    coreFull.RouteSend netNone pidA pidF 9 = (some Err.mailboxFull, coreFull) :=
  routeSend_full_mailbox_drops coreFull netNone pidA pidF 9 procFull (by decide) (by decide)
    (by decide) (by decide) (by decide)

/-- C3 counterexample: a sender pid carrying this node's name but a stale
creation does not belong to the node's `(node_name, creation)` pair, yet the
send is accepted and delivered (only the node name is checked). -/
theorem routeSend_stale_sender_accepted :
    pidStale.node = coreTwo.nodename ∧
    pidStale.creation ≠ coreTwo.creation ∧
    (coreTwo.RouteSend netNone pidStale pidA 11).1 = none ∧
    alistLookup pidA.id (coreTwo.RouteSend netNone pidStale pidA 11).2.processes =
      some { procA with mailBox := [(pidStale, 11)] } := by
  refine ⟨by decide, by decide, by decide, by decide⟩

/-- C3 (amended): for each of `RouteSend`, `RouteSendReg`, `RouteSendAlias`,
a `from` pid whose node name differs from this node's name yields
`SenderUnknown` and an unchanged state; the sender's creation is not
examined. -/
theorem routeSend_alien_sender (c : Core) (net : Net) (f t : Pid) (tr : ProcessID)
    (ta : Alias) (msg : Term) (h : f.node ≠ c.nodename) :
    c.RouteSend net f t msg = (some Err.senderUnknown, c) ∧
    c.RouteSendReg net f tr msg = (some Err.senderUnknown, c) ∧
    c.RouteSendAlias net f ta msg = (some Err.senderUnknown, c) := by
  exact ⟨by simp [Core.RouteSend, h], by simp [Core.RouteSendReg, h],
    by simp [Core.RouteSendAlias, h]⟩

/-- C3 witness: the amended theorem evaluated at a foreign sender pid, for all
three routing operations. -/
theorem routeSend_alien_sender_witness :
    coreTwo.RouteSend netNone pidAlien pidA 3 = (some Err.senderUnknown, coreTwo) ∧
    coreTwo.RouteSendReg netNone pidAlien ⟨"procA", "demo@localhost"⟩ 3 =
      (some Err.senderUnknown, coreTwo) ∧
    coreTwo.RouteSendAlias netNone pidAlien refA 3 = (some Err.senderUnknown, coreTwo) :=
  routeSend_alien_sender coreTwo netNone pidAlien pidA ⟨"procA", "demo@localhost"⟩ refA 3
    (by decide)

/-- C4 counterexample: for a pid of a remote node whose creation differs from
the local creation, `RouteSend` takes the remote branch and does not return
`ProcessIncarnation` (here the connection attempt fails with `NoRoute`), so
the claim quantified over every pid with a mismatched creation is false. -/
theorem routeSend_remote_creation_not_incarnation :
    pidRemoteOld.creation ≠ coreTwo.creation ∧
    procA.isAlive = true ∧
    (coreTwo.RouteSend netNone pidA pidRemoteOld 4).1 = some Err.noRoute ∧
    (coreTwo.RouteSend netNone pidA pidRemoteOld 4).1 ≠ some Err.processIncarnation := by
  refine ⟨by decide, by decide, by decide, by decide⟩

/-- C4 (amended): for any pid addressed to this node (matching node name)
whose creation differs from the node's creation, `RouteSend` returns
`ProcessIncarnation` and delivers nothing (state unchanged); remote-addressed
pids skip this check. -/
theorem routeSend_incarnation (c : Core) (net : Net) (f t : Pid) (msg : Term)
    (hf : f.node = c.nodename) (ht : t.node = c.nodename)
    (hc : t.creation ≠ c.creation) :
    c.RouteSend net f t msg = (some Err.processIncarnation, c) := by
  simp [Core.RouteSend, hf, ht, hc]

/-- C4 witness: the amended theorem evaluated at a previous-incarnation pid of
the sample node. -/
theorem routeSend_incarnation_witness :
    coreTwo.RouteSend netNone pidA pidOld 4 = (some Err.processIncarnation, coreTwo) :=
  routeSend_incarnation coreTwo netNone pidA pidOld 4 (by decide) (by decide) (by decide)

/-- C5: every ref minted by `MakeRef` carries the node's name and creation;
with `nt` the incremented 64-bit counter, `ID[0] = nt mod 2^18` (the
`(2<<17)-1` mask keeps the low 18 bits), `ID[1] = nt >> 46`, `ID[2] = 0`;
the counter strictly increases while it does not wrap; and `newCore`
initialises the counter to the supplied wall-clock nanoseconds. -/
theorem makeRef_spec (c : Core) (n : String) (cr now : Nat) :
    (c.MakeRef).1.node = c.nodename ∧
    (c.MakeRef).1.creation = c.creation ∧
    (c.MakeRef).1.id0 = ((c.uniqID + 1) % 2 ^ 64) % 2 ^ 18 ∧
    (c.MakeRef).1.id1 = ((c.uniqID + 1) % 2 ^ 64) / 2 ^ 46 ∧
    (c.MakeRef).1.id2 = 0 ∧
    (c.MakeRef).2.uniqID = (c.uniqID + 1) % 2 ^ 64 ∧
    (c.uniqID + 1 < 2 ^ 64 → c.uniqID < (c.MakeRef).2.uniqID) ∧
    (newCore n cr now).uniqID = now % 2 ^ 64 := by
  have hmask : ((c.uniqID + 1) % 2 ^ 64) &&& ((2 <<< 17) - 1) =
      ((c.uniqID + 1) % 2 ^ 64) % 2 ^ 18 := by
    have h2 : (2 : Nat) <<< 17 = 2 ^ 18 := by
      rw [Nat.shiftLeft_eq]
      norm_num [← pow_succ']
    rw [h2, Nat.and_pow_two_sub_one_eq_mod]
  have hlt64 : (c.uniqID + 1) % 2 ^ 64 < 2 ^ 64 :=
    Nat.mod_lt _ (by norm_num)
  refine ⟨rfl, rfl, ?_, ?_, rfl, rfl, ?_, rfl⟩
  · show ((((c.uniqID + 1) % 2 ^ 64) &&& ((2 <<< 17) - 1)) % 2 ^ 32) =
      ((c.uniqID + 1) % 2 ^ 64) % 2 ^ 18
    rw [hmask]
    exact Nat.mod_eq_of_lt
      (lt_of_lt_of_le (Nat.mod_lt _ (by norm_num)) (by norm_num))
  · show (((c.uniqID + 1) % 2 ^ 64) >>> 46) % 2 ^ 32 = _
    rw [Nat.shiftRight_eq_div_pow]
    refine Nat.mod_eq_of_lt (lt_of_lt_of_le ?_ (by norm_num : (2:Nat) ^ 18 ≤ 2 ^ 32))
    rw [Nat.div_lt_iff_lt_mul (by norm_num : 0 < (2:Nat) ^ 46)]
    calc (c.uniqID + 1) % 2 ^ 64 < 2 ^ 64 := hlt64
      _ = 2 ^ 18 * 2 ^ 46 := by norm_num [← pow_add]
  · intro hnw
    show c.uniqID < (c.uniqID + 1) % 2 ^ 64
    rw [Nat.mod_eq_of_lt hnw]
    exact Nat.lt_succ_self _

/-- C5 witness: on the sample core the counter strictly increases. -/
theorem makeRef_spec_witness :
    coreTwo.uniqID < (coreTwo.MakeRef).2.uniqID :=
  (makeRef_spec coreTwo "x@y" 1 2).2.2.2.2.2.2.1 (by decide)

/-- C1 failing input: the clean-up loop of `deleteProcess` clears the entire
alias table.  With live processes `procA` and `procQ`, and `refA` an alias
owned by `procQ`, `deleteProcess(pidA)` leaves `procQ` alive and registered,
with `refA` still in `procQ`'s alias list, yet the alias index no longer
resolves `refA` — contradicting the claim that only P's aliases are dropped
and `by_alias[A] = Q` persists for every other live process Q. -/
theorem deleteProcess_clears_foreign_alias :
    alistLookup refA coreTwo.aliases = some pidQ ∧
    refA ∈ procQ.aliases ∧
    procQ.isAlive = true ∧
    alistLookup pidQ.id (coreTwo.deleteProcess pidA).processes = some procQ ∧
    alistLookup refA (coreTwo.deleteProcess pidA).aliases = none ∧
    (coreTwo.deleteProcess pidA).ProcessByAlias refA = none ∧
    (coreTwo.deleteProcess pidA).IsAlias refA = false := by
  refine ⟨by decide, by decide, by decide, by decide, by decide, by decide, by decide⟩

/-- C7: the three registry lookups never return a process whose context has
been cancelled: a table entry pointing at a cancelled process yields `nil`,
and any process returned is alive. -/
theorem lookups_skip_dead_processes (c : Core) (pid : Pid) (a : Alias) (name : String)
    (p q : Process) (tp : Pid) :
    (alistLookup pid.id c.processes = some p → p.isAlive = false →
      c.ProcessByPid pid = none) ∧
    (∀ p', c.ProcessByPid pid = some p' → p'.isAlive = true) ∧
    (alistLookup a c.aliases = some tp → alistLookup tp.id c.processes = some q →
      q.isAlive = false → c.ProcessByAlias a = none) ∧
    (∀ p', c.ProcessByAlias a = some p' → p'.isAlive = true) ∧
    (name ≠ "" → alistLookup name c.names = some tp →
      alistLookup tp.id c.processes = some q → q.isAlive = false →
      c.ProcessByName name = none) ∧
    (∀ p', c.ProcessByName name = some p' → p'.isAlive = true) := by
  have hpid : ∀ (t : Pid) (p' : Process), c.ProcessByPid t = some p' → p'.isAlive = true := by
    intro t p' h
    unfold Core.ProcessByPid at h
    split at h
    · split at h
      · cases h; assumption
      · cases h
    · cases h
  refine ⟨?_, fun p' => hpid pid p', ?_, ?_, ?_, ?_⟩
  · intro hp hdead
    simp [Core.ProcessByPid, hp, hdead]
  · intro ha hq hdead
    simp [Core.ProcessByAlias, ha, hq, hdead]
  · intro p' h
    unfold Core.ProcessByAlias at h
    split at h
    · split at h
      · split at h
        · cases h; assumption
        · cases h
      · cases h
    · cases h
  · intro hne hn hq hdead
    simp only [Core.ProcessByName, if_pos hne, hn]
    simp [Core.ProcessByPid, hq, hdead]
  · intro p' h
    unfold Core.ProcessByName at h
    split at h
    · split at h
      · exact hpid _ p' h
      · cases h
    · exact hpid _ p' h

/-- C7 witness: on the sample core holding only a cancelled process that is
still indexed by id, name and alias, all three lookups return `nil`. -/
theorem lookups_skip_dead_processes_witness :
    coreDead.ProcessByPid pidD = none ∧
    coreDead.ProcessByAlias refD = none ∧
    coreDead.ProcessByName "dead" = none := by
  have H := lookups_skip_dead_processes coreDead pidD refD "dead" procDead procDead pidD
  exact ⟨H.1 (by decide) (by decide),
    H.2.2.1 (by decide) (by decide) (by decide),
    H.2.2.2.2.1 (by decide) (by decide) (by decide) (by decide)⟩

/-- C9: for a process whose context is not cancelled and whose graceful-exit
channel has not been nil-ed by clean-up, the `exit` capability does a
non-blocking enqueue: a full channel yields `ProcessBusy` with no state
change (and no kill); otherwise the record `(from, reason)` is appended and
the kill handle runs — cancelling the context — exactly when the process does
not trap exits. -/
theorem procExit_spec (f : Pid) (reason : String) (p : Process)
    (halive : p.contextCancelled = false) (hnil : p.gracefulExitNil = false) :
    (p.gracefulExitSize ≤ p.gracefulExit.length →
      procExit f reason p = (some Err.processBusy, p)) ∧
    (p.gracefulExit.length < p.gracefulExitSize →
      (procExit f reason p).1 = none ∧
      (procExit f reason p).2.gracefulExit = p.gracefulExit ++ [(f, reason)] ∧
      (procExit f reason p).2.contextCancelled = !p.trapExit) := by
  constructor
  · intro hfull
    simp [procExit, halive, hnil, hfull]
  · intro hroom
    have hnofull : ¬ p.gracefulExitSize ≤ p.gracefulExit.length := Nat.not_le.mpr hroom
    by_cases htrap : p.trapExit <;>
      simp [procExit, halive, hnil, hnofull, htrap]

/-- C9 witness: delivering an exit to the live, non-trapping sample process
enqueues the record and cancels its context; its twin with a full one-slot
channel gets `ProcessBusy`. -/
theorem procExit_spec_witness :
    (procExit pidA "boom" procQ).1 = none ∧
    (procExit pidA "boom" procQ).2.gracefulExit = [(pidA, "boom")] ∧
    (procExit pidA "boom" procQ).2.contextCancelled = true := by
  have H := (procExit_spec pidA "boom" procQ (by decide) (by decide)).2 (by decide)
  refine ⟨H.1, ?_, ?_⟩
  · rw [H.2.1]; decide
  · rw [H.2.2]; decide

/-- C6: under the alias-table/alias-list consistency the core maintains,
`deleteAlias(owner, a)` returns `AliasUnknown` exactly when `a` is not in the
alias table (hence a repeated delete of the same alias returns
`AliasUnknown`), `ProcessUnknown` exactly when `a` is known but `owner` is no
longer in the process table, `AliasOwner` exactly when `a` resolves to a
process other than `owner` while `owner` is registered, succeeds when `a`
resolves to `owner`, and in every error case leaves the state — alias table
and per-process alias lists — unchanged. -/
theorem deleteAlias_spec (c : Core) (owner : Pid) (a : Alias)
    (hcons : aliasConsistent c owner a = true) :
    (alistLookup a c.aliases = some owner →
      (alistLookup owner.id c.processes).isSome = true →
      (c.deleteAlias owner a).1 = none ∧
      alistLookup a (c.deleteAlias owner a).2.aliases = none) ∧
    ((c.deleteAlias owner a).1 = some Err.aliasUnknown ↔
      alistLookup a c.aliases = none) ∧
    ((c.deleteAlias owner a).1 = some Err.processUnknown ↔
      (alistLookup a c.aliases).isSome = true ∧
        alistLookup owner.id c.processes = none) ∧
    ((c.deleteAlias owner a).1 = some Err.aliasOwner ↔
      (∃ t, alistLookup a c.aliases = some t ∧ t ≠ owner) ∧
        (alistLookup owner.id c.processes).isSome = true) ∧
    (∀ e, (c.deleteAlias owner a).1 = some e → (c.deleteAlias owner a).2 = c) ∧
    ((c.deleteAlias owner a).1 = none →
      ((c.deleteAlias owner a).2.deleteAlias owner a).1 = some Err.aliasUnknown) := by
  cases h1 : alistLookup a c.aliases with
  | none =>
      refine ⟨?_, ?_, ?_, ?_, ?_, ?_⟩ <;> simp [Core.deleteAlias, h1]
  | some target =>
      cases h2 : alistLookup owner.id c.processes with
      | none =>
          refine ⟨?_, ?_, ?_, ?_, ?_, ?_⟩ <;> simp [Core.deleteAlias, h1, h2]
      | some r =>
          by_cases ht : target = owner
          · subst ht
            have hmem : a ∈ r.aliases := by
              have hc := hcons
              simp [aliasConsistent, h1, h2] at hc
              exact hc
            obtain ⟨l, hl⟩ :=
              Option.isSome_iff_exists.mp (goRemoveAlias_isSome a r.aliases hmem)
            refine ⟨?_, ?_, ?_, ?_, ?_, ?_⟩
            · intro _ _
              exact ⟨by simp [Core.deleteAlias, h1, h2, hl],
                by simp [Core.deleteAlias, h1, h2, hl, alistLookup_alistErase]⟩
            · simp [Core.deleteAlias, h1, h2, hl]
            · simp [Core.deleteAlias, h1, h2, hl]
            · simp [Core.deleteAlias, h1, h2, hl]
            · intro e he
              exfalso
              simp [Core.deleteAlias, h1, h2, hl] at he
            · intro _
              simp [Core.deleteAlias, h1, h2, hl, alistLookup_alistErase]
          · refine ⟨?_, ?_, ?_, ?_, ?_, ?_⟩
            · intro hown _
              cases hown
              exact absurd rfl ht
            · simp [Core.deleteAlias, h1, h2, ht]
            · simp [Core.deleteAlias, h1, h2, ht]
            · constructor
              · intro _
                exact ⟨⟨target, rfl, ht⟩, rfl⟩
              · intro _
                simp [Core.deleteAlias, h1, h2, ht]
            · intro e _
              simp [Core.deleteAlias, h1, h2, ht]
            · intro h0
              simp [Core.deleteAlias, h1, h2, ht] at h0

/-- C6 witness: on the sample core, the owner's delete of its alias succeeds,
a second delete of the same alias returns `AliasUnknown`, and a delete by a
non-owner returns `AliasOwner` leaving the state unchanged. -/
theorem deleteAlias_spec_witness :
    (coreTwo.deleteAlias pidQ refA).1 = none ∧
    ((coreTwo.deleteAlias pidQ refA).2.deleteAlias pidQ refA).1 = some Err.aliasUnknown ∧
    (coreTwo.deleteAlias pidA refA).1 = some Err.aliasOwner ∧
    (coreTwo.deleteAlias pidA refA).2 = coreTwo := by
  have H := deleteAlias_spec coreTwo pidQ refA (by decide)
  have H2 := deleteAlias_spec coreTwo pidA refA (by decide)
  refine ⟨(H.1 (by decide) (by decide)).1,
    H.2.2.2.2.2 (H.1 (by decide) (by decide)).1, ?_, ?_⟩
  · exact H2.2.2.2.1.mpr ⟨⟨pidQ, by decide, by decide⟩, by decide⟩
  · exact H2.2.2.2.2.1 Err.aliasOwner
      (H2.2.2.2.1.mpr ⟨⟨pidQ, by decide, by decide⟩, by decide⟩)

end Ergo
